import Mathlib

/-!
Shallow embedding of the modeling pipeline in `src/data_modeling.ipynb`
(russian-car-plates repository) and proofs about its specification.

Conventions of the embedding:
* numpy float arrays are modelled as lists over a linear ordered field
  (instantiated at `ℚ` for decidable evaluation, at `ℝ` where the source
  applies `np.exp`); arithmetic is exact, not IEEE-754;
* in Lean, `x / 0 = 0`; the source's only division guarded against a zero
  denominator (inside `smape`) is translated with the explicit guard;
* a Python exception raised by an external fit/predict call is modelled as
  an `Option` result (`none` = the call raised);
* `pandas` column selection that can raise `KeyError` returns an `Option`.
-/

/-- Per-element SMAPE term, from `smape` in `data_modeling.ipynb`:
`denominator = (np.abs(y_true) + np.abs(y_pred)) / 2.0`, `diff = np.abs(y_true - y_pred)`,
and `smape_term` is `0` where the denominator is `0` (the `np.zeros_like` initialisation
kept by the mask `non_zero_denom`), else `diff / denominator`. -/
def smapeTerm {α : Type} [LinearOrderedField α] [DecidableEq α] (t p : α) : α :=
  let denominator := (|t| + |p|) / 2
  if denominator = 0 then 0 else |t - p| / denominator

/-- `smape(y_true, y_pred)` from `data_modeling.ipynb`: `np.mean(smape_term) * 100`.
The mean is `sum / length`; on the empty input Lean's junk value `0 / 0 = 0` applies. -/
def smape {α : Type} [LinearOrderedField α] [DecidableEq α] (y_true y_pred : List α) : α :=
  let terms := (y_true.zip y_pred).map (fun q => smapeTerm q.1 q.2)
  terms.sum / (terms.length : α) * 100

/-- The SMAPE formula as worded by the spec (§4.4): per-element term
`|true − pred| / ((|true| + |pred|) / 2)`, with the term defined as `0` when the
denominator is `0`, which the spec glosses as "both values zero"; overall metric
is the mean of the terms times 100. Spec-side definition, for comparison with
`smape` above (which is translated from the source). -/
def smapeSpecFormula {α : Type} [LinearOrderedField α] [DecidableEq α]
    (pairs : List (α × α)) : α :=
  (pairs.map (fun q =>
    if q.1 = 0 ∧ q.2 = 0 then 0 else |q.1 - q.2| / ((|q.1| + |q.2|) / 2))).sum
    / (pairs.length : α) * 100

theorem smapeTerm_eq_specTerm {α : Type} [LinearOrderedField α] [DecidableEq α] (t p : α) :
    smapeTerm t p = if t = 0 ∧ p = 0 then 0 else |t - p| / ((|t| + |p|) / 2) := by
  unfold smapeTerm
  have hiff : (|t| + |p|) / 2 = 0 ↔ t = 0 ∧ p = 0 := by
    rw [div_eq_zero_iff]
    constructor
    · rintro (h | h)
      · have ht : |t| = 0 := le_antisymm (by linarith [abs_nonneg t, abs_nonneg p]) (abs_nonneg t)
        have hp : |p| = 0 := le_antisymm (by linarith [abs_nonneg t, abs_nonneg p]) (abs_nonneg p)
        exact ⟨abs_eq_zero.mp ht, abs_eq_zero.mp hp⟩
      · exact absurd h two_ne_zero
    · rintro ⟨ht, hp⟩
      left
      simp [ht, hp]
  by_cases h : t = 0 ∧ p = 0
  · simp [h, hiff.mpr h]
  · rw [if_neg h, if_neg (fun hz => h (hiff.mp hz))]

theorem smapeTerm_self {α : Type} [LinearOrderedField α] [DecidableEq α] (t : α) :
    smapeTerm t t = 0 := by
  unfold smapeTerm
  by_cases h : (|t| + |t|) / 2 = 0 <;> simp [h]

theorem smapeTerm_comm {α : Type} [LinearOrderedField α] [DecidableEq α] (t p : α) :
    smapeTerm t p = smapeTerm p t := by
  unfold smapeTerm
  rw [abs_sub_comm, add_comm (|t|)]

theorem zip_self_eq {α : Type} (a : List α) (q : α × α) (hq : q ∈ a.zip a) : q.1 = q.2 := by
  induction a with
  | nil => simp at hq
  | cons x xs ih =>
    rw [List.zip_cons_cons] at hq
    rcases List.mem_cons.mp hq with h | h
    · rw [h]
    · exact ih h

/-- C4: `smape` equals the mean over elements of
`|true−pred| / ((|true|+|pred|)/2)`, times 100, with an element's term defined
as 0 whenever its denominator is 0 (both values zero). -/
theorem c4_smape_eq_spec_formula (y_true y_pred : List ℚ)
    (hlen : y_true.length = y_pred.length) :
    smape y_true y_pred = smapeSpecFormula (y_true.zip y_pred) := by
  unfold smape smapeSpecFormula
  have : ((y_true.zip y_pred).map (fun q => smapeTerm q.1 q.2))
      = (y_true.zip y_pred).map (fun q =>
          if q.1 = 0 ∧ q.2 = 0 then 0 else |q.1 - q.2| / ((|q.1| + |q.2|) / 2)) :=
    List.map_congr_left (fun q _ => smapeTerm_eq_specTerm q.1 q.2)
  simp only [this, List.length_map]

theorem c4_smape_eq_spec_formula_witness :
    ([1, 2, 0] : List ℚ).length = ([1, 0, 0] : List ℚ).length ∧
    smape ([1, 2, 0] : List ℚ) [1, 0, 0]
      = smapeSpecFormula (([1, 2, 0] : List ℚ).zip [1, 0, 0]) :=
  ⟨rfl, c4_smape_eq_spec_formula [1, 2, 0] [1, 0, 0] rfl⟩

/-- C5: `smape a a = 0`; `smape` is fully symmetric under swapping true and
predicted; and an element where both values are 0 contributes the term 0
(never an undefined value). -/
theorem c5_smape_symmetry (a b : List ℚ) (hlen : a.length = b.length) :
    smape a a = 0 ∧ smape a b = smape b a ∧ smapeTerm (0 : ℚ) 0 = 0 := by
  refine ⟨?_, ?_, by simp [smapeTerm]⟩
  · unfold smape
    have hz : ((a.zip a).map (fun q => smapeTerm q.1 q.2)).sum = 0 := by
      apply List.sum_eq_zero
      intro x hx
      rcases List.mem_map.mp hx with ⟨q, hq, rfl⟩
      rw [zip_self_eq a q hq]
      exact smapeTerm_self q.2
    simp [hz]
  · unfold smape
    have hmap : (b.zip a).map (fun q => smapeTerm q.1 q.2)
        = (a.zip b).map (fun q => smapeTerm q.1 q.2) := by
      rw [← List.zip_swap a b, List.map_map]
      exact List.map_congr_left (fun q _ => (smapeTerm_comm q.1 q.2).symm)
    rw [hmap]

theorem c5_smape_symmetry_witness :
    ([1, 2] : List ℚ).length = ([3, 4] : List ℚ).length ∧
    (smape ([1, 2] : List ℚ) [1, 2] = 0 ∧
      smape ([1, 2] : List ℚ) [3, 4] = smape ([3, 4] : List ℚ) [1, 2] ∧
      smapeTerm (0 : ℚ) 0 = 0) :=
  ⟨rfl, c5_smape_symmetry [1, 2] [3, 4] rfl⟩

/-- `inv_errors = {k: 1 / v for k, v in errors.items()}` from the ensemble cell. -/
def inv_errors {α : Type} [LinearOrderedField α] (errs : List (String × α)) :
    List (String × α) :=
  errs.map (fun q => (q.1, 1 / q.2))

/-- `norm_weights = {k: v / sum(inv_errors.values()) for k, v in inv_errors.items()}`
from the ensemble cell. -/
def norm_weights {α : Type} [LinearOrderedField α] (inv : List (String × α)) :
    List (String × α) :=
  inv.map (fun q => (q.1, q.2 / (inv.map Prod.snd).sum))

theorem norm_weights_inv_errors_eq {α : Type} [LinearOrderedField α]
    (errs : List (String × α)) :
    norm_weights (inv_errors errs)
      = errs.map (fun q => (q.1, (1 / q.2) / (errs.map (fun r => 1 / r.2)).sum)) := by
  unfold norm_weights inv_errors
  simp [List.map_map, Function.comp_def]

/-- C6: ensemble weights are `(1/error) / Σ (1/error)`, they sum to 1, a single
model gets weight 1, and of two models the one with the smaller error gets the
larger weight. -/
theorem c6_norm_weights (errs : List (String × ℚ))
    (hpos : ∀ q ∈ errs, 0 < q.2) (hne : errs ≠ []) :
    norm_weights (inv_errors errs)
      = errs.map (fun q => (q.1, (1 / q.2) / (errs.map (fun r => 1 / r.2)).sum)) ∧
    ((norm_weights (inv_errors errs)).map Prod.snd).sum = 1 ∧
    (∀ n e, errs = [(n, e)] → norm_weights (inv_errors errs) = [(n, 1)]) ∧
    (∀ n1 e1 n2 e2, errs = [(n1, e1), (n2, e2)] → e1 < e2 →
      ((norm_weights (inv_errors errs)).map Prod.snd).getD 1 0
        < ((norm_weights (inv_errors errs)).map Prod.snd).getD 0 0) := by
  have hS : 0 < ((inv_errors errs).map Prod.snd).sum := by
    apply List.sum_pos
    · intro x hx
      rcases List.mem_map.mp hx with ⟨q, hq, rfl⟩
      rcases List.mem_map.mp hq with ⟨r, hr, rfl⟩
      have := hpos r hr
      positivity
    · intro h
      apply hne
      have hlen := congrArg List.length h
      simpa [inv_errors] using hlen
  refine ⟨norm_weights_inv_errors_eq errs, ?_, ?_, ?_⟩
  · have hmap : (norm_weights (inv_errors errs)).map Prod.snd
        = (inv_errors errs).map
            (fun q => Prod.snd q * (((inv_errors errs).map Prod.snd).sum)⁻¹) := by
      simp [norm_weights, List.map_map, Function.comp, div_eq_mul_inv]
    rw [hmap, List.sum_map_mul_right (inv_errors errs) Prod.snd]
    exact mul_inv_cancel₀ (ne_of_gt hS)
  · intro n e h
    subst h
    have he : (0 : ℚ) < e := hpos (n, e) (by simp)
    have hinv : (1 : ℚ) / e ≠ 0 := by positivity
    simp [norm_weights, inv_errors, div_self hinv, inv_mul_cancel₀ (ne_of_gt he)]
  · intro n1 e1 n2 e2 h hlt
    subst h
    have h1 : (0 : ℚ) < e1 := hpos (n1, e1) (by simp)
    have h2 : (0 : ℚ) < e2 := hpos (n2, e2) (by simp)
    have hS' : (0 : ℚ) < 1 / e1 + 1 / e2 := by positivity
    have hw : (1 : ℚ) / e2 < 1 / e1 := one_div_lt_one_div_of_lt h1 hlt
    simp only [norm_weights, inv_errors, List.map_cons, List.map_nil,
      List.sum_cons, List.sum_nil, add_zero, List.getD_cons_succ, List.getD_cons_zero]
    rw [div_lt_div_iff₀ hS' hS']
    exact mul_lt_mul_of_pos_right hw hS'

theorem c6_norm_weights_witness :
    ((∀ q ∈ ([("A", 1), ("B", 2)] : List (String × ℚ)), 0 < q.2) ∧
      ([("A", 1), ("B", 2)] : List (String × ℚ)) ≠ []) ∧
    (norm_weights (inv_errors ([("A", 1), ("B", 2)] : List (String × ℚ)))
      = ([("A", 1), ("B", 2)] : List (String × ℚ)).map
          (fun q => (q.1, (1 / q.2) /
            (([("A", 1), ("B", 2)] : List (String × ℚ)).map (fun r => 1 / r.2)).sum)) ∧
    ((norm_weights (inv_errors ([("A", 1), ("B", 2)] : List (String × ℚ)))).map
        Prod.snd).sum = 1 ∧
    (∀ n e, ([("A", 1), ("B", 2)] : List (String × ℚ)) = [(n, e)] →
      norm_weights (inv_errors ([("A", 1), ("B", 2)] : List (String × ℚ))) = [(n, 1)]) ∧
    (∀ n1 e1 n2 e2, ([("A", 1), ("B", 2)] : List (String × ℚ)) = [(n1, e1), (n2, e2)] →
      e1 < e2 →
      ((norm_weights (inv_errors ([("A", 1), ("B", 2)] : List (String × ℚ)))).map
          Prod.snd).getD 1 0
        < ((norm_weights (inv_errors ([("A", 1), ("B", 2)] : List (String × ℚ)))).map
            Prod.snd).getD 0 0)) :=
  ⟨⟨by decide, by decide⟩, c6_norm_weights [("A", 1), ("B", 2)] (by decide) (by decide)⟩

/-- `ensemble_preds = np.clip(ensemble_preds, a_min=0, a_max=None)` from the
submission cell: elementwise lower clip at 0, no upper bound. -/
def clipMin0 {α : Type} [LinearOrder α] [Zero α] (preds : List α) : List α :=
  preds.map (fun x => max 0 x)

/-- `submission = pd.DataFrame({'id': test_df['id'], 'price': ensemble_preds})`:
one (id, price) record per test row, ids in the test table's original order.
`pandas` raises when the two columns have different lengths, hence the `Option`. -/
def buildSubmission {α : Type} (ids : List String) (preds : List α) :
    Option (List (String × α)) :=
  if ids.length = preds.length then some (ids.zip preds) else none

/-- C8: the submission writer clips each prediction to a minimum of 0 with no
upper bound (negative values become 0, nonnegative values are preserved), and
the output has exactly one row per test row with the identifier column equal to
the test table's identifier column in its original order. -/
theorem c8_submission_writer (ids : List String) (preds : List ℚ)
    (hlen : ids.length = preds.length) :
    (∀ i, i < preds.length →
      (preds.getD i 0 < 0 → (clipMin0 preds).getD i 0 = 0) ∧
      (0 ≤ preds.getD i 0 → (clipMin0 preds).getD i 0 = preds.getD i 0)) ∧
    (∃ sub, buildSubmission ids (clipMin0 preds) = some sub ∧
      sub.length = ids.length ∧ sub.map Prod.fst = ids) := by
  constructor
  · intro i hi
    have hget : preds[i]? = some (preds.getD i 0) := by
      rw [List.getD_eq_getElem?_getD]
      rcases List.getElem?_eq_some_iff.mpr ⟨hi, rfl⟩ with h
      simp [List.getElem?_eq_getElem hi]
    have hclip : (clipMin0 preds).getD i 0 = max 0 (preds.getD i 0) := by
      rw [List.getD_eq_getElem?_getD, clipMin0, List.getElem?_map, hget]
      rfl
    constructor
    · intro hneg
      rw [hclip, max_eq_left (le_of_lt hneg)]
    · intro hpos
      rw [hclip, max_eq_right hpos]
  · have hlen' : (clipMin0 preds).length = preds.length := List.length_map _ _
    refine ⟨ids.zip (clipMin0 preds), ?_, ?_, ?_⟩
    · rw [buildSubmission, if_pos (by rw [hlen', hlen])]
    · rw [List.length_zip, hlen', hlen, min_self]
    · exact List.map_fst_zip _ _ (by rw [hlen', hlen])

theorem c8_submission_writer_witness :
    (["r1", "r2"] : List String).length = ([-(3/2), 427/10] : List ℚ).length ∧
    ((∀ i, i < ([-(3/2), 427/10] : List ℚ).length →
      (([-(3/2), 427/10] : List ℚ).getD i 0 < 0 →
        (clipMin0 ([-(3/2), 427/10] : List ℚ)).getD i 0 = 0) ∧
      (0 ≤ ([-(3/2), 427/10] : List ℚ).getD i 0 →
        (clipMin0 ([-(3/2), 427/10] : List ℚ)).getD i 0
          = ([-(3/2), 427/10] : List ℚ).getD i 0)) ∧
    (∃ sub, buildSubmission ["r1", "r2"] (clipMin0 ([-(3/2), 427/10] : List ℚ)) = some sub ∧
      sub.length = (["r1", "r2"] : List String).length ∧ sub.map Prod.fst = ["r1", "r2"])) :=
  ⟨rfl, c8_submission_writer ["r1", "r2"] [-(3/2), 427/10] rfl⟩

/-- Storage type of a pandas column, as `detect_columns` in the notebook
inspects it: `dtype == 'bool'` picks booleans, `dtype.kind in 'if'` picks
integer/float numerics, everything else is treated as categorical
(`dobject` stands for any remaining dtype kind). -/
inductive Dtype where
  | dbool
  | dint
  | dfloat
  | dobject
deriving DecidableEq

/-- A feature-table column as seen by `detect_columns`: its name, its storage
dtype, and its number of distinct values (`X[c].nunique()`). -/
structure PCol where
  name : String
  dtype : Dtype
  nunique : Nat
deriving DecidableEq

/-- `bool_cols = [c for c in X.columns if X[c].dtype == 'bool']`. -/
def bool_cols (X : List PCol) : List String :=
  (X.filter (fun c => c.dtype = Dtype.dbool)).map PCol.name

/-- `num_cols = [c for c in X.columns if X[c].dtype.kind in 'if' and c not in bool_cols]`. -/
def num_cols (X : List PCol) : List String :=
  (X.filter (fun c =>
    (c.dtype = Dtype.dint ∨ c.dtype = Dtype.dfloat) ∧ c.name ∉ bool_cols X)).map PCol.name

/-- `cat_cols = [c for c in X.columns if c not in num_cols + bool_cols]`
(kept as columns rather than names so the cardinality splits below can read
`nunique`, which the source reads back through `X[c]`). -/
def cat_cols (X : List PCol) : List PCol :=
  X.filter (fun c => c.name ∉ num_cols X ∧ c.name ∉ bool_cols X)

/-- `cat_low = [c for c in cat_cols if X[c].nunique() <= 20]`. -/
def cat_low (X : List PCol) : List String :=
  ((cat_cols X).filter (fun c => c.nunique ≤ 20)).map PCol.name

/-- `cat_mid = [c for c in cat_cols if 20 < X[c].nunique() <= 200]`. -/
def cat_mid (X : List PCol) : List String :=
  ((cat_cols X).filter (fun c => 20 < c.nunique ∧ c.nunique ≤ 200)).map PCol.name

/-- `cat_high = [c for c in cat_cols if X[c].nunique() > 200]`. -/
def cat_high (X : List PCol) : List String :=
  ((cat_cols X).filter (fun c => 200 < c.nunique)).map PCol.name

/-- The five lists returned by `detect_columns`. -/
structure ColumnBuckets where
  numCols : List String
  boolCols : List String
  catLow : List String
  catMid : List String
  catHigh : List String

/-- `detect_columns(X)` returns `num_cols, bool_cols, cat_low, cat_mid, cat_high`. -/
def detect_columns (X : List PCol) : ColumnBuckets :=
  ⟨num_cols X, bool_cols X, cat_low X, cat_mid X, cat_high X⟩

theorem mem_bool_cols_iff (X : List PCol) (n : String) :
    n ∈ bool_cols X ↔ ∃ c ∈ X, c.name = n ∧ c.dtype = Dtype.dbool := by
  constructor
  · intro h
    rcases List.mem_map.mp h with ⟨c, hc, rfl⟩
    rcases List.mem_filter.mp hc with ⟨hcX, hcb⟩
    exact ⟨c, hcX, rfl, by simpa using hcb⟩
  · rintro ⟨c, hcX, rfl, hb⟩
    exact List.mem_map.mpr ⟨c, List.mem_filter.mpr ⟨hcX, by simpa using hb⟩, rfl⟩

theorem name_inj (X : List PCol) (hnd : (X.map PCol.name).Nodup) {c d : PCol}
    (hc : c ∈ X) (hd : d ∈ X) (h : c.name = d.name) : c = d :=
  List.inj_on_of_nodup_map hnd hc hd h

theorem not_mem_bool_cols (X : List PCol) (hnd : (X.map PCol.name).Nodup) {c : PCol}
    (hc : c ∈ X) (hb : c.dtype ≠ Dtype.dbool) : c.name ∉ bool_cols X := by
  intro hmem
  rcases (mem_bool_cols_iff X c.name).mp hmem with ⟨d, hdX, hdn, hdb⟩
  exact hb (by rw [name_inj X hnd hc hdX hdn.symm, hdb])

theorem mem_num_cols_iff (X : List PCol) (hnd : (X.map PCol.name).Nodup) (n : String) :
    n ∈ num_cols X ↔
      ∃ c ∈ X, c.name = n ∧ (c.dtype = Dtype.dint ∨ c.dtype = Dtype.dfloat) := by
  constructor
  · intro h
    rcases List.mem_map.mp h with ⟨c, hc, rfl⟩
    rcases List.mem_filter.mp hc with ⟨hcX, hcond⟩
    have hcond' : (c.dtype = Dtype.dint ∨ c.dtype = Dtype.dfloat) ∧ c.name ∉ bool_cols X := by
      simpa using hcond
    exact ⟨c, hcX, rfl, hcond'.1⟩
  · rintro ⟨c, hcX, rfl, hif⟩
    have hnb : c.name ∉ bool_cols X :=
      not_mem_bool_cols X hnd hcX (by rcases hif with h | h <;> simp [h])
    exact List.mem_map.mpr ⟨c, List.mem_filter.mpr ⟨hcX, by simp [hif, hnb]⟩, rfl⟩

theorem not_mem_num_cols (X : List PCol) (hnd : (X.map PCol.name).Nodup) {c : PCol}
    (hc : c ∈ X) (hn : ¬(c.dtype = Dtype.dint ∨ c.dtype = Dtype.dfloat)) :
    c.name ∉ num_cols X := by
  intro hmem
  rcases (mem_num_cols_iff X hnd c.name).mp hmem with ⟨d, hdX, hdn, hdif⟩
  exact hn (by rw [name_inj X hnd hc hdX hdn.symm]; exact hdif)

theorem mem_cat_cols_iff (X : List PCol) (hnd : (X.map PCol.name).Nodup) (c : PCol) :
    c ∈ cat_cols X ↔ c ∈ X ∧ c.dtype = Dtype.dobject := by
  constructor
  · intro h
    rcases List.mem_filter.mp h with ⟨hcX, hcond⟩
    have hcond' : c.name ∉ num_cols X ∧ c.name ∉ bool_cols X := by simpa using hcond
    refine ⟨hcX, ?_⟩
    cases hdt : c.dtype with
    | dbool =>
      exact absurd ((mem_bool_cols_iff X c.name).mpr ⟨c, hcX, rfl, hdt⟩) hcond'.2
    | dint =>
      exact absurd ((mem_num_cols_iff X hnd c.name).mpr ⟨c, hcX, rfl, Or.inl hdt⟩) hcond'.1
    | dfloat =>
      exact absurd ((mem_num_cols_iff X hnd c.name).mpr ⟨c, hcX, rfl, Or.inr hdt⟩) hcond'.1
    | dobject => rfl
  · rintro ⟨hcX, hobj⟩
    refine List.mem_filter.mpr ⟨hcX, ?_⟩
    have h1 : c.name ∉ num_cols X := not_mem_num_cols X hnd hcX (by simp [hobj])
    have h2 : c.name ∉ bool_cols X := not_mem_bool_cols X hnd hcX (by simp [hobj])
    simp [h1, h2]

theorem mem_cat_low_iff (X : List PCol) (hnd : (X.map PCol.name).Nodup) (n : String) :
    n ∈ cat_low X ↔ ∃ c ∈ X, c.name = n ∧ c.dtype = Dtype.dobject ∧ c.nunique ≤ 20 := by
  unfold cat_low
  constructor
  · intro h
    rcases List.mem_map.mp h with ⟨c, hc, rfl⟩
    rcases List.mem_filter.mp hc with ⟨hcc, hcard⟩
    rcases (mem_cat_cols_iff X hnd c).mp hcc with ⟨hcX, hobj⟩
    exact ⟨c, hcX, rfl, hobj, by simpa using hcard⟩
  · rintro ⟨c, hcX, rfl, hobj, hcard⟩
    exact List.mem_map.mpr ⟨c, List.mem_filter.mpr
      ⟨(mem_cat_cols_iff X hnd c).mpr ⟨hcX, hobj⟩, by simpa using hcard⟩, rfl⟩

theorem mem_cat_mid_iff (X : List PCol) (hnd : (X.map PCol.name).Nodup) (n : String) :
    n ∈ cat_mid X ↔
      ∃ c ∈ X, c.name = n ∧ c.dtype = Dtype.dobject ∧ 20 < c.nunique ∧ c.nunique ≤ 200 := by
  unfold cat_mid
  constructor
  · intro h
    rcases List.mem_map.mp h with ⟨c, hc, rfl⟩
    rcases List.mem_filter.mp hc with ⟨hcc, hcard⟩
    rcases (mem_cat_cols_iff X hnd c).mp hcc with ⟨hcX, hobj⟩
    exact ⟨c, hcX, rfl, hobj, by simpa using hcard⟩
  · rintro ⟨c, hcX, rfl, hobj, hcard⟩
    exact List.mem_map.mpr ⟨c, List.mem_filter.mpr
      ⟨(mem_cat_cols_iff X hnd c).mpr ⟨hcX, hobj⟩, by simpa using hcard⟩, rfl⟩

theorem mem_cat_high_iff (X : List PCol) (hnd : (X.map PCol.name).Nodup) (n : String) :
    n ∈ cat_high X ↔ ∃ c ∈ X, c.name = n ∧ c.dtype = Dtype.dobject ∧ 200 < c.nunique := by
  unfold cat_high
  constructor
  · intro h
    rcases List.mem_map.mp h with ⟨c, hc, rfl⟩
    rcases List.mem_filter.mp hc with ⟨hcc, hcard⟩
    rcases (mem_cat_cols_iff X hnd c).mp hcc with ⟨hcX, hobj⟩
    exact ⟨c, hcX, rfl, hobj, by simpa using hcard⟩
  · rintro ⟨c, hcX, rfl, hobj, hcard⟩
    exact List.mem_map.mpr ⟨c, List.mem_filter.mpr
      ⟨(mem_cat_cols_iff X hnd c).mpr ⟨hcX, hobj⟩, by simpa using hcard⟩, rfl⟩

theorem disjoint_of_char (X : List PCol) (hnd : (X.map PCol.name).Nodup)
    (A B : List String) (PA PB : PCol → Prop)
    (hA : ∀ n, n ∈ A ↔ ∃ c ∈ X, c.name = n ∧ PA c)
    (hB : ∀ n, n ∈ B ↔ ∃ c ∈ X, c.name = n ∧ PB c)
    (hPQ : ∀ c, PA c → PB c → False) : A.Disjoint B := by
  intro n hnA hnB
  rcases (hA n).mp hnA with ⟨c, hcX, hcn, hPc⟩
  rcases (hB n).mp hnB with ⟨d, hdX, hdn, hPd⟩
  have hcd : c = d := name_inj X hnd hcX hdX (by rw [hcn, hdn])
  exact hPQ c hPc (hcd ▸ hPd)

/-- C3: the five output column lists of `detect_columns` are pairwise disjoint
and their union is the input column set; a boolean-dtype column goes to the
boolean list, otherwise an integer/float-dtype column goes to the numeric list,
otherwise the column is categorical and routes by distinct-value count:
at most 20 to low, in (20, 200] to medium, above 200 to high. -/
theorem c3_column_classifier (X : List PCol) (hnd : (X.map PCol.name).Nodup) :
    List.Pairwise List.Disjoint
      [(detect_columns X).numCols, (detect_columns X).boolCols,
        (detect_columns X).catLow, (detect_columns X).catMid,
        (detect_columns X).catHigh] ∧
    (∀ n, (n ∈ (detect_columns X).numCols ∨ n ∈ (detect_columns X).boolCols ∨
        n ∈ (detect_columns X).catLow ∨ n ∈ (detect_columns X).catMid ∨
        n ∈ (detect_columns X).catHigh) ↔ n ∈ X.map PCol.name) ∧
    (∀ c ∈ X,
      (c.dtype = Dtype.dbool → c.name ∈ (detect_columns X).boolCols) ∧
      ((c.dtype = Dtype.dint ∨ c.dtype = Dtype.dfloat) →
        c.name ∈ (detect_columns X).numCols) ∧
      (c.dtype = Dtype.dobject →
        (c.nunique ≤ 20 → c.name ∈ (detect_columns X).catLow) ∧
        (20 < c.nunique → c.nunique ≤ 200 → c.name ∈ (detect_columns X).catMid) ∧
        (200 < c.nunique → c.name ∈ (detect_columns X).catHigh))) := by
  simp only [detect_columns]
  refine ⟨?_, ?_, ?_⟩
  · simp only [List.pairwise_cons, List.forall_mem_cons, List.forall_mem_nil,
      List.not_mem_nil, false_implies, implies_true, and_true]
    refine ⟨⟨?_, ?_, ?_, ?_⟩, ⟨?_, ?_, ?_⟩, ⟨?_, ?_⟩, ?_, trivial, List.Pairwise.nil⟩
    · exact disjoint_of_char X hnd _ _ _ _ (mem_num_cols_iff X hnd) (mem_bool_cols_iff X)
        (fun c hA hB => by simp_all)
    · exact disjoint_of_char X hnd _ _ _ _ (mem_num_cols_iff X hnd) (mem_cat_low_iff X hnd)
        (fun c hA hB => by simp_all)
    · exact disjoint_of_char X hnd _ _ _ _ (mem_num_cols_iff X hnd) (mem_cat_mid_iff X hnd)
        (fun c hA hB => by simp_all)
    · exact disjoint_of_char X hnd _ _ _ _ (mem_num_cols_iff X hnd) (mem_cat_high_iff X hnd)
        (fun c hA hB => by simp_all)
    · exact disjoint_of_char X hnd _ _ _ _ (mem_bool_cols_iff X) (mem_cat_low_iff X hnd)
        (fun c hA hB => by simp_all)
    · exact disjoint_of_char X hnd _ _ _ _ (mem_bool_cols_iff X) (mem_cat_mid_iff X hnd)
        (fun c hA hB => by simp_all)
    · exact disjoint_of_char X hnd _ _ _ _ (mem_bool_cols_iff X) (mem_cat_high_iff X hnd)
        (fun c hA hB => by simp_all)
    · exact disjoint_of_char X hnd _ _ _ _ (mem_cat_low_iff X hnd) (mem_cat_mid_iff X hnd)
        (fun c hA hB => by omega)
    · exact disjoint_of_char X hnd _ _ _ _ (mem_cat_low_iff X hnd) (mem_cat_high_iff X hnd)
        (fun c hA hB => by omega)
    · exact disjoint_of_char X hnd _ _ _ _ (mem_cat_mid_iff X hnd) (mem_cat_high_iff X hnd)
        (fun c hA hB => by omega)
  · intro n
    constructor
    · rintro (h | h | h | h | h)
      · rcases (mem_num_cols_iff X hnd n).mp h with ⟨c, hcX, rfl, _⟩
        exact List.mem_map.mpr ⟨c, hcX, rfl⟩
      · rcases (mem_bool_cols_iff X n).mp h with ⟨c, hcX, rfl, _⟩
        exact List.mem_map.mpr ⟨c, hcX, rfl⟩
      · rcases (mem_cat_low_iff X hnd n).mp h with ⟨c, hcX, rfl, _⟩
        exact List.mem_map.mpr ⟨c, hcX, rfl⟩
      · rcases (mem_cat_mid_iff X hnd n).mp h with ⟨c, hcX, rfl, _⟩
        exact List.mem_map.mpr ⟨c, hcX, rfl⟩
      · rcases (mem_cat_high_iff X hnd n).mp h with ⟨c, hcX, rfl, _⟩
        exact List.mem_map.mpr ⟨c, hcX, rfl⟩
    · intro h
      rcases List.mem_map.mp h with ⟨c, hcX, rfl⟩
      cases hdt : c.dtype with
      | dbool =>
        exact Or.inr (Or.inl ((mem_bool_cols_iff X c.name).mpr ⟨c, hcX, rfl, hdt⟩))
      | dint =>
        exact Or.inl ((mem_num_cols_iff X hnd c.name).mpr ⟨c, hcX, rfl, Or.inl hdt⟩)
      | dfloat =>
        exact Or.inl ((mem_num_cols_iff X hnd c.name).mpr ⟨c, hcX, rfl, Or.inr hdt⟩)
      | dobject =>
        by_cases h20 : c.nunique ≤ 20
        · exact Or.inr (Or.inr (Or.inl
            ((mem_cat_low_iff X hnd c.name).mpr ⟨c, hcX, rfl, hdt, h20⟩)))
        · by_cases h200 : c.nunique ≤ 200
          · exact Or.inr (Or.inr (Or.inr (Or.inl
              ((mem_cat_mid_iff X hnd c.name).mpr ⟨c, hcX, rfl, hdt, by omega, h200⟩))))
          · exact Or.inr (Or.inr (Or.inr (Or.inr
              ((mem_cat_high_iff X hnd c.name).mpr ⟨c, hcX, rfl, hdt, by omega⟩))))
  · intro c hcX
    refine ⟨?_, ?_, ?_⟩
    · intro hb
      exact (mem_bool_cols_iff X c.name).mpr ⟨c, hcX, rfl, hb⟩
    · intro hif
      exact (mem_num_cols_iff X hnd c.name).mpr ⟨c, hcX, rfl, hif⟩
    · intro hobj
      refine ⟨?_, ?_, ?_⟩
      · intro h20
        exact (mem_cat_low_iff X hnd c.name).mpr ⟨c, hcX, rfl, hobj, h20⟩
      · intro h20 h200
        exact (mem_cat_mid_iff X hnd c.name).mpr ⟨c, hcX, rfl, hobj, h20, h200⟩
      · intro h200
        exact (mem_cat_high_iff X hnd c.name).mpr ⟨c, hcX, rfl, hobj, h200⟩

theorem c3_column_classifier_witness :
    (([⟨"b1", Dtype.dbool, 2⟩, ⟨"n1", Dtype.dint, 5⟩, ⟨"f1", Dtype.dfloat, 7⟩,
        ⟨"lo", Dtype.dobject, 3⟩, ⟨"mi", Dtype.dobject, 50⟩,
        ⟨"hi", Dtype.dobject, 300⟩] : List PCol).map PCol.name).Nodup ∧
    (List.Pairwise List.Disjoint
      [(detect_columns [⟨"b1", Dtype.dbool, 2⟩, ⟨"n1", Dtype.dint, 5⟩,
          ⟨"f1", Dtype.dfloat, 7⟩, ⟨"lo", Dtype.dobject, 3⟩, ⟨"mi", Dtype.dobject, 50⟩,
          ⟨"hi", Dtype.dobject, 300⟩]).numCols,
        (detect_columns [⟨"b1", Dtype.dbool, 2⟩, ⟨"n1", Dtype.dint, 5⟩,
          ⟨"f1", Dtype.dfloat, 7⟩, ⟨"lo", Dtype.dobject, 3⟩, ⟨"mi", Dtype.dobject, 50⟩,
          ⟨"hi", Dtype.dobject, 300⟩]).boolCols,
        (detect_columns [⟨"b1", Dtype.dbool, 2⟩, ⟨"n1", Dtype.dint, 5⟩,
          ⟨"f1", Dtype.dfloat, 7⟩, ⟨"lo", Dtype.dobject, 3⟩, ⟨"mi", Dtype.dobject, 50⟩,
          ⟨"hi", Dtype.dobject, 300⟩]).catLow,
        (detect_columns [⟨"b1", Dtype.dbool, 2⟩, ⟨"n1", Dtype.dint, 5⟩,
          ⟨"f1", Dtype.dfloat, 7⟩, ⟨"lo", Dtype.dobject, 3⟩, ⟨"mi", Dtype.dobject, 50⟩,
          ⟨"hi", Dtype.dobject, 300⟩]).catMid,
        (detect_columns [⟨"b1", Dtype.dbool, 2⟩, ⟨"n1", Dtype.dint, 5⟩,
          ⟨"f1", Dtype.dfloat, 7⟩, ⟨"lo", Dtype.dobject, 3⟩, ⟨"mi", Dtype.dobject, 50⟩,
          ⟨"hi", Dtype.dobject, 300⟩]).catHigh] ∧
      (∀ n, (n ∈ (detect_columns [⟨"b1", Dtype.dbool, 2⟩, ⟨"n1", Dtype.dint, 5⟩,
          ⟨"f1", Dtype.dfloat, 7⟩, ⟨"lo", Dtype.dobject, 3⟩, ⟨"mi", Dtype.dobject, 50⟩,
          ⟨"hi", Dtype.dobject, 300⟩]).numCols ∨
        n ∈ (detect_columns [⟨"b1", Dtype.dbool, 2⟩, ⟨"n1", Dtype.dint, 5⟩,
          ⟨"f1", Dtype.dfloat, 7⟩, ⟨"lo", Dtype.dobject, 3⟩, ⟨"mi", Dtype.dobject, 50⟩,
          ⟨"hi", Dtype.dobject, 300⟩]).boolCols ∨
        n ∈ (detect_columns [⟨"b1", Dtype.dbool, 2⟩, ⟨"n1", Dtype.dint, 5⟩,
          ⟨"f1", Dtype.dfloat, 7⟩, ⟨"lo", Dtype.dobject, 3⟩, ⟨"mi", Dtype.dobject, 50⟩,
          ⟨"hi", Dtype.dobject, 300⟩]).catLow ∨
        n ∈ (detect_columns [⟨"b1", Dtype.dbool, 2⟩, ⟨"n1", Dtype.dint, 5⟩,
          ⟨"f1", Dtype.dfloat, 7⟩, ⟨"lo", Dtype.dobject, 3⟩, ⟨"mi", Dtype.dobject, 50⟩,
          ⟨"hi", Dtype.dobject, 300⟩]).catMid ∨
        n ∈ (detect_columns [⟨"b1", Dtype.dbool, 2⟩, ⟨"n1", Dtype.dint, 5⟩,
          ⟨"f1", Dtype.dfloat, 7⟩, ⟨"lo", Dtype.dobject, 3⟩, ⟨"mi", Dtype.dobject, 50⟩,
          ⟨"hi", Dtype.dobject, 300⟩]).catHigh) ↔
        n ∈ ([⟨"b1", Dtype.dbool, 2⟩, ⟨"n1", Dtype.dint, 5⟩, ⟨"f1", Dtype.dfloat, 7⟩,
          ⟨"lo", Dtype.dobject, 3⟩, ⟨"mi", Dtype.dobject, 50⟩,
          ⟨"hi", Dtype.dobject, 300⟩] : List PCol).map PCol.name) ∧
      (∀ c ∈ ([⟨"b1", Dtype.dbool, 2⟩, ⟨"n1", Dtype.dint, 5⟩, ⟨"f1", Dtype.dfloat, 7⟩,
          ⟨"lo", Dtype.dobject, 3⟩, ⟨"mi", Dtype.dobject, 50⟩,
          ⟨"hi", Dtype.dobject, 300⟩] : List PCol),
        (c.dtype = Dtype.dbool → c.name ∈ (detect_columns [⟨"b1", Dtype.dbool, 2⟩,
          ⟨"n1", Dtype.dint, 5⟩, ⟨"f1", Dtype.dfloat, 7⟩, ⟨"lo", Dtype.dobject, 3⟩,
          ⟨"mi", Dtype.dobject, 50⟩, ⟨"hi", Dtype.dobject, 300⟩]).boolCols) ∧
        ((c.dtype = Dtype.dint ∨ c.dtype = Dtype.dfloat) →
          c.name ∈ (detect_columns [⟨"b1", Dtype.dbool, 2⟩, ⟨"n1", Dtype.dint, 5⟩,
            ⟨"f1", Dtype.dfloat, 7⟩, ⟨"lo", Dtype.dobject, 3⟩, ⟨"mi", Dtype.dobject, 50⟩,
            ⟨"hi", Dtype.dobject, 300⟩]).numCols) ∧
        (c.dtype = Dtype.dobject →
          (c.nunique ≤ 20 → c.name ∈ (detect_columns [⟨"b1", Dtype.dbool, 2⟩,
            ⟨"n1", Dtype.dint, 5⟩, ⟨"f1", Dtype.dfloat, 7⟩, ⟨"lo", Dtype.dobject, 3⟩,
            ⟨"mi", Dtype.dobject, 50⟩, ⟨"hi", Dtype.dobject, 300⟩]).catLow) ∧
          (20 < c.nunique → c.nunique ≤ 200 →
            c.name ∈ (detect_columns [⟨"b1", Dtype.dbool, 2⟩, ⟨"n1", Dtype.dint, 5⟩,
              ⟨"f1", Dtype.dfloat, 7⟩, ⟨"lo", Dtype.dobject, 3⟩, ⟨"mi", Dtype.dobject, 50⟩,
              ⟨"hi", Dtype.dobject, 300⟩]).catMid) ∧
          (200 < c.nunique → c.name ∈ (detect_columns [⟨"b1", Dtype.dbool, 2⟩,
            ⟨"n1", Dtype.dint, 5⟩, ⟨"f1", Dtype.dfloat, 7⟩, ⟨"lo", Dtype.dobject, 3⟩,
            ⟨"mi", Dtype.dobject, 50⟩, ⟨"hi", Dtype.dobject, 300⟩]).catHigh)))) :=
  ⟨by decide, c3_column_classifier _ (by decide)⟩

/-- A pandas DataFrame, reduced to what the claims need: an ordered association
list of column name to column values. -/
def Table : Type := List (String × List ℚ)

/-- The column labels of a table. -/
def colNames (t : Table) : List String := t.map Prod.fst

/-- `TARGET = 'log_price'` from the notebook's parameter cell. -/
def TARGET : String := "log_price"

/-- `DROP_COLS` from the notebook's parameter cell. -/
def DROP_COLS : List String :=
  ["id", "plate", "price", "log_price", "is_train",
   "is_number_000", "is_number_444", "is_number_222", "is_number_700",
   "is_number_555", "quarter", "day_of_week", "is_weekend",
   "prestige_score",
   "is_number_300", "is_number_333", "is_number_400"]

/-- `df.drop(columns=cols, errors=...)`: with `errors='ignore'` (modelled as
`ignoreMissing = true`) absent labels are skipped; with `errors='raise'` pandas
raises a `KeyError` (modelled as `none`) when any label is absent. -/
def dropColumns (t : Table) (cols : List String) (ignoreMissing : Bool) : Option Table :=
  if ignoreMissing = true ∨ ∀ c ∈ cols, c ∈ colNames t then
    some (t.filter (fun q => q.1 ∉ cols))
  else none

/-- `df[c]` column selection: pandas raises a `KeyError` (modelled as `none`)
when the label is absent. -/
def getColumn (t : Table) (c : String) : Option (List ℚ) :=
  (t.find? (fun q => q.1 = c)).map Prod.snd

/-- C9: dropping the configured drop-list columns succeeds even when listed
columns are absent from the table (the notebook passes `errors='ignore'`), but
selecting the target column (`train_df[TARGET]`) raises when the target column
is missing and selecting the identifier column (`test_df['id']`) raises when
the identifier column is missing. -/
theorem c9_drop_and_required_columns (train testT : Table)
    (htr : TARGET ∉ colNames train) (hid : "id" ∉ colNames testT) :
    (dropColumns train DROP_COLS true).isSome = true ∧
    getColumn train TARGET = none ∧
    getColumn testT "id" = none := by
  refine ⟨?_, ?_, ?_⟩
  · rw [dropColumns, if_pos (Or.inl rfl)]
    rfl
  · rw [getColumn, List.find?_eq_none.mpr, Option.map_none']
    intro q hq
    simp only [decide_eq_true_eq]
    intro hqT
    exact htr (hqT ▸ List.mem_map.mpr ⟨q, hq, rfl⟩)
  · rw [getColumn, List.find?_eq_none.mpr, Option.map_none']
    intro q hq
    simp only [decide_eq_true_eq]
    intro hqT
    exact hid (hqT ▸ List.mem_map.mpr ⟨q, hq, rfl⟩)

theorem c9_drop_and_required_columns_witness :
    (TARGET ∉ colNames ([("plate", [1]), ("region", [2])] : List (String × List ℚ)) ∧
      "id" ∉ colNames ([("price", [3])] : List (String × List ℚ))) ∧
    ((dropColumns ([("plate", [1]), ("region", [2])] : List (String × List ℚ))
        DROP_COLS true).isSome = true ∧
      getColumn ([("plate", [1]), ("region", [2])] : List (String × List ℚ)) TARGET = none ∧
      getColumn ([("price", [3])] : List (String × List ℚ)) "id" = none) :=
  ⟨⟨by decide, by decide⟩,
    c9_drop_and_required_columns [("plate", [1]), ("region", [2])] [("price", [3])]
      (by decide) (by decide)⟩

/-- `N_SPLITS = 10` from the notebook's parameter cell. -/
def N_SPLITS : Nat := 10

/-- Modelled from the spec: the fold generator `kf.split` comes from
scikit-learn's `StratifiedKFold`, which is not part of this repository.  The
spec (§3 Fold Assignment, §4.4) requires only that it yield a partition of the
training row indices into `K` disjoint validation sets whose union is all rows,
each row validated exactly once.  We model the `k` validation index lists as
row `i` being held out in fold number `i % k`. -/
def kfValFolds (n k : Nat) : List (List Nat) :=
  (List.range k).map (fun j => (List.range n).filter (fun i => i % k = j))

/-- A registered model (an entry of the notebook's `models` / `pipelines`
dicts).  `foldPred f` models fitting the fresh pipeline on fold number `f`
(folds are numbered from 1 as in `enumerate(kf.split(...), 1)`): `none` means
the external fit/predict raised an exception in that fold; `some (vp, tp)`
gives the fold's prediction function for validation rows (`vp`) and for test
rows (`tp`). -/
structure RModel (α : Type) where
  name : String
  foldPred : Nat → Option ((Nat → α) × (Nat → α))

/-- What the training loop leaves behind for one model: the out-of-fold
prediction store, the accumulated test predictions, and whether all folds
completed (no exception was raised). -/
structure TrainResult (α : Type) where
  oof : List α
  test : List α
  completed : Bool

/-- `oof_preds[model_name][val_idx] = pipeline.predict(X_val)`: write the
fold's validation predictions into the store at the validation indices. -/
def writeAt {α : Type} (oofA : List α) (valIdx : List Nat) (p : Nat → α) : List α :=
  valIdx.foldl (fun acc i => acc.set i (p i)) oofA

/-- `test_preds[model_name] += pipeline.predict(X_test) / N_SPLITS`. -/
def addTest {α : Type} [LinearOrderedField α] (testA : List α) (p : Nat → α) : List α :=
  testA.mapIdx (fun j x => x + p j / (N_SPLITS : α))

/-- The per-model fold loop with the surrounding `try`/`except`: folds are
processed in order; an exception (`none`) aborts the remaining folds and marks
the model as not completed (`continue` then moves on to the next model). -/
def runFolds {α : Type} [LinearOrderedField α] (m : RModel α) :
    List (Nat × List Nat) → List α → List α → TrainResult α
  | [], oofA, testA => ⟨oofA, testA, true⟩
  | (f, valIdx) :: rest, oofA, testA =>
    match m.foldPred f with
    | none => ⟨oofA, testA, false⟩
    | some (vp, tp) => runFolds m rest (writeAt oofA valIdx vp) (addTest testA tp)

/-- One model's pass through the cross-validation loop, starting from the
zero-initialised stores `oof_preds[name] = np.zeros(len(y))` and
`test_preds[name] = np.zeros(len(X_test))`. -/
def trainModel {α : Type} [LinearOrderedField α] (nTrain nTest : Nat)
    (folds : List (List Nat)) (m : RModel α) : TrainResult α :=
  runFolds m (List.enumFrom 1 folds) (List.replicate nTrain 0) (List.replicate nTest 0)

/-- `for model_name, pipeline in pipelines.items(): ...` — every registered
model is trained in turn (a failed model is skipped, not removed). -/
def runAll {α : Type} [LinearOrderedField α] (nTrain nTest : Nat)
    (folds : List (List Nat)) (registry : List (RModel α)) :
    List (String × TrainResult α) :=
  registry.map (fun m => (m.name, trainModel nTrain nTest folds m))

/-- `errors = {name: smape(np.exp(y), np.exp(oof_preds[name])) for name in models}`
from the ensemble cell.  Note the comprehension ranges over ALL registered
models, whether or not their training completed. -/
noncomputable def errors (y : List ℝ) (results : List (String × TrainResult ℝ)) :
    List (String × ℝ) :=
  results.map (fun q => (q.1, smape (y.map Real.exp) (q.2.oof.map Real.exp)))

/-- Dictionary lookup `norm_weights[k]` (0 if absent; in the source the key is
always present since both dicts are built over the same model names). -/
def lookupWeight {α : Type} [Zero α] (ws : List (String × α)) (k : String) : α :=
  ((ws.find? (fun q => q.1 = k)).map Prod.snd).getD 0

/-- `ensemble_preds_log = sum(test_preds[k] * norm_weights[k] for k in test_preds)`:
elementwise weighted sum of the per-model test prediction vectors. -/
def ensemble_preds_log {α : Type} [LinearOrderedField α] (nTest : Nat)
    (results : List (String × TrainResult α)) (ws : List (String × α)) : List α :=
  (List.range nTest).map
    (fun j => (results.map (fun q => q.2.test.getD j 0 * lookupWeight ws q.1)).sum)

/-- `ensemble_preds = np.exp(ensemble_preds_log)`: back-transform the log-space
blend to the price scale. -/
noncomputable def ensemble_preds (logPreds : List ℝ) : List ℝ :=
  logPreds.map Real.exp

/-- The whole run from the trained registry to the submission records:
train every registered model over the K folds, weight by inverse SMAPE,
blend test predictions in log space, exponentiate, clip at 0 and pair with
the test identifiers (the source then writes `submission.csv`). -/
noncomputable def pipelineSubmission (ids : List String) (y : List ℝ) (nTest : Nat)
    (registry : List (RModel ℝ)) : Option (List (String × ℝ)) :=
  let results := runAll y.length nTest (kfValFolds y.length N_SPLITS) registry
  let ws := norm_weights (inv_errors (errors y results))
  buildSubmission ids (clipMin0 (ensemble_preds (ensemble_preds_log nTest results ws)))

theorem writeAt_cons {α : Type} (oofA : List α) (a : Nat) (rest : List Nat) (p : Nat → α) :
    writeAt oofA (a :: rest) p = writeAt (oofA.set a (p a)) rest p := rfl

theorem writeAt_length {α : Type} (valIdx : List Nat) (oofA : List α) (p : Nat → α) :
    (writeAt oofA valIdx p).length = oofA.length := by
  induction valIdx generalizing oofA with
  | nil => rfl
  | cons a rest ih => rw [writeAt_cons, ih, List.length_set]

theorem writeAt_getElem?_of_notMem {α : Type} (valIdx : List Nat) (oofA : List α)
    (p : Nat → α) (i : Nat) (hi : i ∉ valIdx) :
    (writeAt oofA valIdx p)[i]? = oofA[i]? := by
  induction valIdx generalizing oofA with
  | nil => rfl
  | cons a rest ih =>
    rw [writeAt_cons, ih _ (fun h => hi (List.mem_cons_of_mem a h)),
      List.getElem?_set_ne (fun h => hi (by rw [← h]; exact List.mem_cons_self a rest))]

theorem writeAt_getElem?_of_mem {α : Type} (valIdx : List Nat) (oofA : List α)
    (p : Nat → α) (i : Nat) (hi : i ∈ valIdx) (hlen : i < oofA.length) :
    (writeAt oofA valIdx p)[i]? = some (p i) := by
  induction valIdx generalizing oofA with
  | nil => cases hi
  | cons a rest ih =>
    rw [writeAt_cons]
    by_cases hr : i ∈ rest
    · exact ih _ hr (by rw [List.length_set]; exact hlen)
    · have hai : a = i := by
        rcases List.mem_cons.mp hi with h | h
        · exact h.symm
        · exact absurd h hr
      subst hai
      rw [writeAt_getElem?_of_notMem rest _ p a hr, List.getElem?_set_self hlen]

theorem runFolds_oof_length {α : Type} [LinearOrderedField α] (m : RModel α)
    (pairs : List (Nat × List Nat)) (oofA testA : List α) :
    (runFolds m pairs oofA testA).oof.length = oofA.length := by
  induction pairs generalizing oofA testA with
  | nil => rfl
  | cons q rest ih =>
    rcases q with ⟨f, valIdx⟩
    rw [runFolds]
    cases hfp : m.foldPred f with
    | none => rfl
    | some fp =>
      rcases fp with ⟨vp, tp⟩
      rw [ih, writeAt_length]

theorem runFolds_completed_true {α : Type} [LinearOrderedField α] (m : RModel α)
    (pairs : List (Nat × List Nat)) (oofA testA : List α)
    (h : ∀ q ∈ pairs, (m.foldPred q.1).isSome) :
    (runFolds m pairs oofA testA).completed = true := by
  induction pairs generalizing oofA testA with
  | nil => rfl
  | cons q rest ih =>
    rcases q with ⟨f, valIdx⟩
    rw [runFolds]
    cases hfp : m.foldPred f with
    | none =>
      have := h (f, valIdx) (List.mem_cons_self _ _)
      rw [hfp] at this
      cases this
    | some fp =>
      rcases fp with ⟨vp, tp⟩
      exact ih _ _ (fun q hq => h q (List.mem_cons_of_mem _ hq))

theorem runFolds_completed_false {α : Type} [LinearOrderedField α] (m : RModel α)
    (pairs : List (Nat × List Nat)) (oofA testA : List α)
    (h : ∃ q ∈ pairs, m.foldPred q.1 = none) :
    (runFolds m pairs oofA testA).completed = false := by
  induction pairs generalizing oofA testA with
  | nil => simp at h
  | cons q rest ih =>
    rcases q with ⟨f, valIdx⟩
    rw [runFolds]
    cases hfp : m.foldPred f with
    | none => rfl
    | some fp =>
      rcases fp with ⟨vp, tp⟩
      rcases h with ⟨q', hq', hnone⟩
      rcases List.mem_cons.mp hq' with h' | h'
      · rw [h'] at hnone
        rw [hnone] at hfp
        cases hfp
      · exact ih _ _ ⟨q', h', hnone⟩

theorem runFolds_oof_getElem?_of_notMem {α : Type} [LinearOrderedField α] (m : RModel α)
    (pairs : List (Nat × List Nat)) (oofA testA : List α) (i : Nat)
    (h : ∀ q ∈ pairs, i ∉ q.2) :
    (runFolds m pairs oofA testA).oof[i]? = oofA[i]? := by
  induction pairs generalizing oofA testA with
  | nil => rfl
  | cons q rest ih =>
    rcases q with ⟨f, valIdx⟩
    rw [runFolds]
    cases hfp : m.foldPred f with
    | none => rfl
    | some fp =>
      rcases fp with ⟨vp, tp⟩
      rw [ih _ _ (fun q hq => h q (List.mem_cons_of_mem _ hq)),
        writeAt_getElem?_of_notMem _ _ _ _ (h (f, valIdx) (List.mem_cons_self _ _))]

theorem runFolds_oof_getElem?_unique {α : Type} [LinearOrderedField α] (m : RModel α)
    (pairs : List (Nat × List Nat)) (oofA testA : List α) (i f : Nat) (v : List Nat)
    (vp tp : Nat → α)
    (hmem : (f, v) ∈ pairs)
    (huniq : ∀ q ∈ pairs, i ∈ q.2 → q = (f, v))
    (hnd : (pairs.map Prod.fst).Nodup)
    (hiv : i ∈ v)
    (hsucc : ∀ q ∈ pairs, (m.foldPred q.1).isSome)
    (hfp : m.foldPred f = some (vp, tp))
    (hlen : i < oofA.length) :
    (runFolds m pairs oofA testA).oof[i]? = some (vp i) := by
  induction pairs generalizing oofA testA with
  | nil => cases hmem
  | cons q rest ih =>
    rcases q with ⟨f', v'⟩
    rw [List.map_cons, List.nodup_cons] at hnd
    by_cases hq : (f', v') = (f, v)
    · injection hq with h1 h2
      subst h1
      subst h2
      simp only [runFolds, hfp]
      have hrest : ∀ q ∈ rest, i ∉ q.2 := by
        intro q hqr hiq
        exact hnd.1 (List.mem_map.mpr ⟨q, hqr,
          congrArg Prod.fst (huniq q (List.mem_cons_of_mem _ hqr) hiq)⟩)
      rw [runFolds_oof_getElem?_of_notMem _ _ _ _ _ hrest,
        writeAt_getElem?_of_mem _ _ _ _ hiv hlen]
    · have hfmem : (f, v) ∈ rest := by
        rcases List.mem_cons.mp hmem with h' | h'
        · exact absurd h'.symm hq
        · exact h'
      have hs : (m.foldPred f').isSome := hsucc (f', v') (List.mem_cons_self _ _)
      rcases Option.isSome_iff_exists.mp hs with ⟨fp', hfp'⟩
      rcases fp' with ⟨vp', tp'⟩
      simp only [runFolds, hfp']
      exact ih _ _ hfmem (fun q hq' => huniq q (List.mem_cons_of_mem _ hq')) hnd.2
        (fun q hq' => hsucc q (List.mem_cons_of_mem _ hq'))
        (by rw [writeAt_length]; exact hlen)

theorem errors_map_fst (y : List ℝ) (results : List (String × TrainResult ℝ)) :
    (errors y results).map Prod.fst = results.map Prod.fst := by
  simp [errors, List.map_map, Function.comp_def]

theorem inv_errors_map_fst {α : Type} [LinearOrderedField α] (errs : List (String × α)) :
    (inv_errors errs).map Prod.fst = errs.map Prod.fst := by
  simp [inv_errors, List.map_map, Function.comp_def]

theorem norm_weights_map_fst {α : Type} [LinearOrderedField α] (inv : List (String × α)) :
    (norm_weights inv).map Prod.fst = inv.map Prod.fst := by
  simp [norm_weights, List.map_map, Function.comp_def]

theorem runAll_map_fst {α : Type} [LinearOrderedField α] (nTrain nTest : Nat)
    (folds : List (List Nat)) (registry : List (RModel α)) :
    (runAll nTrain nTest folds registry).map Prod.fst = registry.map RModel.name := by
  simp [runAll, List.map_map, Function.comp_def]

theorem kfValFolds_getElem? (n k j : Nat) (hj : j < k) :
    (kfValFolds n k)[j]? = some ((List.range n).filter (fun i => i % k = j)) := by
  rw [kfValFolds, List.getElem?_map, List.getElem?_range hj, Option.map_some']

theorem kfValFolds_length (n k : Nat) : (kfValFolds n k).length = k := by
  rw [kfValFolds, List.length_map, List.length_range]

theorem mem_kfValFolds_getD (n k i j : Nat) :
    i ∈ (kfValFolds n k).getD j [] ↔ j < k ∧ i < n ∧ i % k = j := by
  by_cases hj : j < k
  · rw [List.getD_eq_getElem?_getD, kfValFolds_getElem? n k j hj]
    simp [List.mem_filter, List.mem_range, hj]
  · have h0 : (kfValFolds n k)[j]? = none :=
      List.getElem?_eq_none (by rw [kfValFolds_length]; omega)
    rw [List.getD_eq_getElem?_getD, h0]
    simp [hj]

/-- C7: the K = 10 validation folds form a partition of the training row
indices (every row is in some fold, pairwise-disjointly, in exactly one fold),
and after a model completes all folds its out-of-fold store holds, at every
row, exactly the prediction of the fold in which that row was held out. -/
theorem c7_fold_partition_and_oof (n nTest : Nat) (m : RModel ℝ)
    (hsucc : ∀ f, (m.foldPred f).isSome) :
    (∀ i, i < n ↔ ∃ fold ∈ kfValFolds n N_SPLITS, i ∈ fold) ∧
    (∀ i, i < n → ∃! j, j < N_SPLITS ∧ i ∈ (kfValFolds n N_SPLITS).getD j []) ∧
    (∀ i j1 j2, i ∈ (kfValFolds n N_SPLITS).getD j1 [] →
      i ∈ (kfValFolds n N_SPLITS).getD j2 [] → j1 = j2) ∧
    (trainModel n nTest (kfValFolds n N_SPLITS) m).completed = true ∧
    (∀ i, i < n → ∀ vp tp, m.foldPred (i % N_SPLITS + 1) = some (vp, tp) →
      (trainModel n nTest (kfValFolds n N_SPLITS) m).oof.getD i 0 = vp i) := by
  have hK : 0 < N_SPLITS := by norm_num [N_SPLITS]
  refine ⟨?_, ?_, ?_, ?_, ?_⟩
  · intro i
    constructor
    · intro hi
      refine ⟨(List.range n).filter (fun x => x % N_SPLITS = i % N_SPLITS), ?_, ?_⟩
      · exact List.mem_iff_getElem?.mpr
          ⟨i % N_SPLITS, kfValFolds_getElem? n N_SPLITS _ (Nat.mod_lt i hK)⟩
      · rw [List.mem_filter, List.mem_range]
        simp [hi]
    · rintro ⟨fold, hfold, hifold⟩
      rcases List.mem_map.mp hfold with ⟨j, _, rfl⟩
      rcases List.mem_filter.mp hifold with ⟨hir, _⟩
      exact List.mem_range.mp hir
  · intro i hi
    refine ⟨i % N_SPLITS, ⟨Nat.mod_lt i hK,
      (mem_kfValFolds_getD n N_SPLITS i (i % N_SPLITS)).mpr
        ⟨Nat.mod_lt i hK, hi, rfl⟩⟩, ?_⟩
    rintro j ⟨_, hjm⟩
    exact ((mem_kfValFolds_getD n N_SPLITS i j).mp hjm).2.2.symm
  · intro i j1 j2 h1 h2
    have e1 := ((mem_kfValFolds_getD n N_SPLITS i j1).mp h1).2.2
    have e2 := ((mem_kfValFolds_getD n N_SPLITS i j2).mp h2).2.2
    rw [← e1, ← e2]
  · exact runFolds_completed_true m _ _ _ (fun q _ => hsucc q.1)
  · intro i hi vp tp hfp
    have hmem : (i % N_SPLITS + 1,
        (List.range n).filter (fun x => x % N_SPLITS = i % N_SPLITS))
        ∈ List.enumFrom 1 (kfValFolds n N_SPLITS) := by
      apply List.mem_iff_getElem?.mpr
      refine ⟨i % N_SPLITS, ?_⟩
      rw [List.getElem?_enumFrom, kfValFolds_getElem? n N_SPLITS _ (Nat.mod_lt i hK),
        Option.map_some']
      simp [Nat.add_comm]
    have huniq : ∀ q ∈ List.enumFrom 1 (kfValFolds n N_SPLITS), i ∈ q.2 →
        q = (i % N_SPLITS + 1,
          (List.range n).filter (fun x => x % N_SPLITS = i % N_SPLITS)) := by
      intro q hq hiq
      rcases List.mem_iff_getElem?.mp hq with ⟨idx, hidx⟩
      rw [List.getElem?_enumFrom] at hidx
      cases hfold : (kfValFolds n N_SPLITS)[idx]? with
      | none => rw [hfold] at hidx; cases hidx
      | some fold =>
        rw [hfold, Option.map_some'] at hidx
        injection hidx with hq'
        subst hq'
        have hidxlt : idx < N_SPLITS := by
          by_contra hge
          rw [List.getElem?_eq_none (by rw [kfValFolds_length]; omega)] at hfold
          cases hfold
        have hfold' : fold = (List.range n).filter (fun x => x % N_SPLITS = idx) := by
          rw [kfValFolds_getElem? n N_SPLITS idx hidxlt] at hfold
          exact (Option.some.inj hfold).symm
        subst hfold'
        rcases List.mem_filter.mp hiq with ⟨_, hmod⟩
        have hmod' : i % N_SPLITS = idx := by simpa using hmod
        subst hmod'
        simp [Nat.add_comm]
    have hnd : ((List.enumFrom 1 (kfValFolds n N_SPLITS)).map Prod.fst).Nodup := by
      rw [List.enumFrom_map_fst]
      exact List.nodup_range' _ _
    have hiv : i ∈ (List.range n).filter (fun x => x % N_SPLITS = i % N_SPLITS) := by
      rw [List.mem_filter, List.mem_range]
      simp [hi]
    have hres := runFolds_oof_getElem?_unique m (List.enumFrom 1 (kfValFolds n N_SPLITS))
      (List.replicate n 0) (List.replicate nTest 0) i (i % N_SPLITS + 1)
      ((List.range n).filter (fun x => x % N_SPLITS = i % N_SPLITS)) vp tp hmem huniq hnd
      hiv (fun q _ => hsucc q.1) hfp (by rw [List.length_replicate]; exact hi)
    rw [trainModel, List.getD_eq_getElem?_getD, hres]
    rfl

theorem c7_fold_partition_and_oof_witness :
    (∀ f, ((⟨"M", fun _ => some (fun _ => (0 : ℝ), fun _ => 0)⟩ : RModel ℝ).foldPred
      f).isSome) ∧
    ((∀ i, i < 23 ↔ ∃ fold ∈ kfValFolds 23 N_SPLITS, i ∈ fold) ∧
      (∀ i, i < 23 → ∃! j, j < N_SPLITS ∧ i ∈ (kfValFolds 23 N_SPLITS).getD j []) ∧
      (∀ i j1 j2, i ∈ (kfValFolds 23 N_SPLITS).getD j1 [] →
        i ∈ (kfValFolds 23 N_SPLITS).getD j2 [] → j1 = j2) ∧
      (trainModel 23 1 (kfValFolds 23 N_SPLITS)
        (⟨"M", fun _ => some (fun _ => (0 : ℝ), fun _ => 0)⟩ : RModel ℝ)).completed = true ∧
      (∀ i, i < 23 → ∀ vp tp,
        ((⟨"M", fun _ => some (fun _ => (0 : ℝ), fun _ => 0)⟩ : RModel ℝ)).foldPred
          (i % N_SPLITS + 1) = some (vp, tp) →
        (trainModel 23 1 (kfValFolds 23 N_SPLITS)
          (⟨"M", fun _ => some (fun _ => (0 : ℝ), fun _ => 0)⟩ : RModel ℝ)).oof.getD i 0
          = vp i)) :=
  ⟨fun _ => rfl, c7_fold_partition_and_oof 23 1 _ (fun _ => rfl)⟩

/-- C1 (amended): on an exception during any fold, that model's remaining folds
are aborted (it finishes not completed) and the run continues with the other
registered models; however the ensemble's error metrics and normalized weights
range over ALL registered models, completed or not — a failed model's partial
zero-initialised out-of-fold store is weighted rather than excluded. -/
theorem c1_failed_model_still_weighted (nTrain nTest : Nat) (folds : List (List Nat))
    (registry : List (RModel ℝ)) (y : List ℝ) (m : RModel ℝ)
    (hfail : ∃ q ∈ List.enumFrom 1 folds, m.foldPred q.1 = none) :
    (trainModel nTrain nTest folds m).completed = false ∧
    (norm_weights (inv_errors (errors y (runAll nTrain nTest folds registry)))).map
      Prod.fst = registry.map RModel.name := by
  constructor
  · exact runFolds_completed_false m _ _ _ hfail
  · rw [norm_weights_map_fst, inv_errors_map_fst, errors_map_fst, runAll_map_fst]

theorem c1_failed_model_still_weighted_witness :
    (∃ q ∈ List.enumFrom 1 [[0], [1]],
      ((⟨"B", fun _ => none⟩ : RModel ℝ)).foldPred q.1 = none) ∧
    ((trainModel 2 1 [[0], [1]] (⟨"B", fun _ => none⟩ : RModel ℝ)).completed = false ∧
      (norm_weights (inv_errors (errors [0, 0] (runAll 2 1 [[0], [1]]
          ([⟨"A", fun _ => some (fun _ => 0, fun _ => 0)⟩, ⟨"B", fun _ => none⟩] :
            List (RModel ℝ)))))).map Prod.fst
        = ([⟨"A", fun _ => some (fun _ => 0, fun _ => 0)⟩, ⟨"B", fun _ => none⟩] :
            List (RModel ℝ)).map RModel.name) :=
  ⟨⟨(1, [0]), by decide, rfl⟩,
    c1_failed_model_still_weighted 2 1 [[0], [1]] _ [0, 0] _ ⟨(1, [0]), by decide, rfl⟩⟩

/-- C1 counterexample: in a run with registered models A (all folds succeed)
and B (raises in fold 1), B does not complete its folds, yet the normalized
ensemble weights are keyed over both A and B — the failed model's partial
results are weighted, contradicting the claim that the weights range only over
models that completed all K folds. -/
theorem c1_counterexample :
    ((runAll 2 1 (kfValFolds 2 N_SPLITS)
        ([⟨"A", fun _ => some (fun _ => 0, fun _ => 0)⟩, ⟨"B", fun _ => none⟩] :
          List (RModel ℝ))).map (fun q => (q.1, q.2.completed))
      = [("A", true), ("B", false)]) ∧
    ((norm_weights (inv_errors (errors [0, 0] (runAll 2 1 (kfValFolds 2 N_SPLITS)
        ([⟨"A", fun _ => some (fun _ => 0, fun _ => 0)⟩, ⟨"B", fun _ => none⟩] :
          List (RModel ℝ)))))).map Prod.fst = ["A", "B"]) := by
  constructor
  · rfl
  · rw [norm_weights_map_fst, inv_errors_map_fst, errors_map_fst, runAll_map_fst]
    rfl

theorem buildSubmission_isSome {α : Type} (ids : List String) (preds : List α)
    (h : ids.length = preds.length) : (buildSubmission ids preds).isSome = true := by
  rw [buildSubmission, if_pos h]
  rfl

theorem pipelineSubmission_isSome (ids : List String) (y : List ℝ) (nTest : Nat)
    (registry : List (RModel ℝ)) (hids : ids.length = nTest) :
    (pipelineSubmission ids y nTest registry).isSome = true := by
  simp only [pipelineSubmission]
  apply buildSubmission_isSome
  simp [clipMin0, ensemble_preds, ensemble_preds_log, hids]

/-- C2 (amended): when zero registered models complete training, the run does
NOT terminate in an error state — the ensemble cell still computes weights over
every registered model's zero-initialised partial store, and a submission
(one record per test row) is still produced and written. -/
theorem c2_total_failure_still_writes_submission (ids : List String) (y : List ℝ)
    (nTest : Nat) (registry : List (RModel ℝ)) (hids : ids.length = nTest)
    (hfail : ∀ m ∈ registry, ∃ q ∈ List.enumFrom 1 (kfValFolds y.length N_SPLITS),
      m.foldPred q.1 = none) :
    (∀ r ∈ runAll y.length nTest (kfValFolds y.length N_SPLITS) registry,
      r.2.completed = false) ∧
    (pipelineSubmission ids y nTest registry).isSome = true := by
  constructor
  · intro r hr
    rcases List.mem_map.mp hr with ⟨mm, hmm, rfl⟩
    exact runFolds_completed_false mm _ _ _ (hfail mm hmm)
  · exact pipelineSubmission_isSome ids y nTest registry hids

theorem c2_total_failure_still_writes_submission_witness :
    ((["t0"] : List String).length = 1 ∧
      (∀ m ∈ ([⟨"XGB", fun _ => none⟩] : List (RModel ℝ)),
        ∃ q ∈ List.enumFrom 1 (kfValFolds ([0, 0] : List ℝ).length N_SPLITS),
          m.foldPred q.1 = none)) ∧
    ((∀ r ∈ runAll ([0, 0] : List ℝ).length 1
        (kfValFolds ([0, 0] : List ℝ).length N_SPLITS)
        ([⟨"XGB", fun _ => none⟩] : List (RModel ℝ)), r.2.completed = false) ∧
      (pipelineSubmission ["t0"] [0, 0] 1
        ([⟨"XGB", fun _ => none⟩] : List (RModel ℝ))).isSome = true) :=
  ⟨⟨rfl, by
      intro m hm
      rw [List.mem_singleton] at hm
      subst hm
      exact ⟨(1, [0]), by decide, rfl⟩⟩,
    c2_total_failure_still_writes_submission ["t0"] [0, 0] 1 _ rfl (by
      intro m hm
      rw [List.mem_singleton] at hm
      subst hm
      exact ⟨(1, [0]), by decide, rfl⟩)⟩

/-- C2 counterexample: a run whose only registered model raises in fold 1 —
so zero models complete training — still produces a submission: the run does
not terminate in an error state and the submission file is written. -/
theorem c2_counterexample :
    ((runAll 2 1 (kfValFolds 2 N_SPLITS)
        ([⟨"XGB", fun _ => none⟩] : List (RModel ℝ))).map (fun r => r.2.completed)
      = [false]) ∧
    (pipelineSubmission ["t0"] [0, 0] 1
      ([⟨"XGB", fun _ => none⟩] : List (RModel ℝ))).isSome = true := by
  constructor
  · rfl
  · exact pipelineSubmission_isSome ["t0"] [0, 0] 1 _ rfl

/-- C10: every final prediction is the exponential of a real-valued log-space
blend, hence strictly positive before clipping; the clip at minimum 0 changes
no value; and every submission record's value is strictly greater than 0. -/
theorem c10_exp_positive_clip_noop (ids : List String) (logPreds : List ℝ)
    (hids : ids.length = logPreds.length) :
    (∀ x ∈ ensemble_preds logPreds, 0 < x) ∧
    clipMin0 (ensemble_preds logPreds) = ensemble_preds logPreds ∧
    (∀ sub, buildSubmission ids (clipMin0 (ensemble_preds logPreds)) = some sub →
      ∀ q ∈ sub, 0 < q.2) := by
  have hpos : ∀ x ∈ ensemble_preds logPreds, 0 < x := by
    intro x hx
    rcases List.mem_map.mp hx with ⟨l, _, rfl⟩
    exact Real.exp_pos l
  have hclip : clipMin0 (ensemble_preds logPreds) = ensemble_preds logPreds := by
    rw [clipMin0]
    conv_rhs => rw [← List.map_id (ensemble_preds logPreds)]
    exact List.map_congr_left (fun x hx => max_eq_right (le_of_lt (hpos x hx)))
  refine ⟨hpos, hclip, ?_⟩
  intro sub hsub q hq
  rw [hclip, buildSubmission] at hsub
  have hlen2 : ids.length = (ensemble_preds logPreds).length := by
    simpa [ensemble_preds] using hids
  rw [if_pos hlen2] at hsub
  have hzip := Option.some.inj hsub
  subst hzip
  rcases q with ⟨a, b⟩
  exact hpos b (List.of_mem_zip hq).2

theorem c10_exp_positive_clip_noop_witness :
    (["t0"] : List String).length = ([0] : List ℝ).length ∧
    ((∀ x ∈ ensemble_preds ([0] : List ℝ), 0 < x) ∧
      clipMin0 (ensemble_preds ([0] : List ℝ)) = ensemble_preds ([0] : List ℝ) ∧
      (∀ sub, buildSubmission ["t0"] (clipMin0 (ensemble_preds ([0] : List ℝ)))
          = some sub → ∀ q ∈ sub, 0 < q.2)) :=
  ⟨rfl, c10_exp_positive_clip_noop ["t0"] [0] rfl⟩
